import Mathlib

/-!
# Verification of the kidsCanDraw pixel-manipulation core

Shallow embedding of the algorithmic core of the repository:

* `src/utils/floodFill.ts` — the iterative, stack-based flood fill over a flat
  RGBA byte buffer (`ImageData.data`), with the squared-distance tolerance
  predicate `matchColor` (threshold 12000) and the per-pixel writer
  `colorPixel`;
* `src/components/Canvas.tsx` — the bounded history stack (`saveHistory`,
  capacity 20, evict index 0), the undo effect (pop and restore the new last
  snapshot when more than one is held), the initialization effect (history
  starts as a single snapshot), and the eraser color selection in `draw`.

Buffers are flat lists of bytes (`List Nat`), indexed as in the source by
`(y * width + x) * 4`; coordinates are integers (`Int`), since the JS numbers
reaching `floodFill` are `Math.floor`ed click positions that may be negative.
The work-stack loop is embedded with an explicit fuel argument; a theorem below
shows that the fuel supplied by `floodFill` is always sufficient, which is the
termination statement for the source's `while` loop.
-/

/-- A pixel coordinate `(x, y)`, as handed to `floodFill` by `Canvas.tsx`. -/
abbrev Pt := Int × Int

/-- Reading `data[i]` on a JS typed array: `none` models the `undefined`
produced by an out-of-range index. -/
def getByte (data : List Nat) (i : Int) : Option Nat :=
  if 0 ≤ i then data[i.toNat]? else none

/-- Numeric view of a typed-array read.  The default `0` for an out-of-range
read is never observable: `matchColor` runs only at in-bounds coordinates of a
well-formed buffer, where every read is `some`. -/
def byteVal (x : Option Nat) : Int := (x.getD 0 : Int)

/-- Function `matchColor` from `src/utils/floodFill.ts`: squared distance of the 4
channels at byte offset `pos` from the reference (seed) color, strictly below
the tolerance 12000. -/
def matchColor (data : List Nat) (pos : Nat) (startR startG startB startA : Int) : Bool :=
  let dr : Int := (data.getD pos 0 : Int) - startR
  let dg : Int := (data.getD (pos + 1) 0 : Int) - startG
  let db : Int := (data.getD (pos + 2) 0 : Int) - startB
  let da : Int := (data.getD (pos + 3) 0 : Int) - startA
  dr * dr + dg * dg + db * db + da * da < 12000

/-- Function `colorPixel` from `src/utils/floodFill.ts`: overwrite the 4 bytes of one
pixel with the fill color. -/
def colorPixel (data : List Nat) (pos : Nat) (r g b a : Nat) : List Nat :=
  (((data.set pos r).set (pos + 1) g).set (pos + 2) b).set (pos + 3) a

/-- The neighbors pushed by the source, listed top-of-stack first: the source
pushes `(x+1,y)`, `(x-1,y)`, `(x,y+1)`, `(x,y-1)` in that order, so `(x,y-1)`
is popped first. -/
def srcNbrs (x y : Int) : List Pt :=
  [(x, y - 1), (x, y + 1), (x - 1, y), (x + 1, y)]

/-- The `while (stack.length > 0)` loop of `floodFill`, with fuel.  Each
iteration pops `(x, y)`, computes `pixelIndex = y * width + x` and
`pos = pixelIndex * 4`, skips out-of-bounds or already-seen pixels, and on a
tolerance match repaints the pixel, marks it seen and pushes its 4 neighbors.
The neighbor list is a parameter (`nbrs`) so that independence of the final
buffer from the push order can be stated; `floodFill` instantiates it with the
source's order `srcNbrs`. -/
def floodLoop (W H : Int) (sr sg sb sa : Int) (r g b a : Nat)
    (nbrs : Int → Int → List Pt) :
    Nat → List Nat → List Bool → List Pt → Option (List Nat × List Bool)
  | 0, _, _, _ => none
  | _ + 1, data, seen, [] => some (data, seen)
  | fuel + 1, data, seen, (x, y) :: rest =>
    if x < 0 ∨ W ≤ x ∨ y < 0 ∨ H ≤ y then
      floodLoop W H sr sg sb sa r g b a nbrs fuel data seen rest
    else if seen.getD (y * W + x).toNat false then
      floodLoop W H sr sg sb sa r g b a nbrs fuel data seen rest
    else if matchColor data ((y * W + x) * 4).toNat sr sg sb sa then
      floodLoop W H sr sg sb sa r g b a nbrs fuel
        (colorPixel data ((y * W + x) * 4).toNat r g b a)
        (seen.set (y * W + x).toNat true)
        (nbrs x y ++ rest)
    else
      floodLoop W H sr sg sb sa r g b a nbrs fuel data seen rest

/-- A hexadecimal digit's value (the digits produced by the app's color
palette; `parseInt` would yield `NaN` on other characters, which the palette
never produces). -/
def hexVal (c : Char) : Nat :=
  if '0' ≤ c ∧ c ≤ '9' then c.toNat - '0'.toNat
  else if 'a' ≤ c ∧ c ≤ 'f' then c.toNat - 'a'.toNat + 10
  else if 'A' ≤ c ∧ c ≤ 'F' then c.toNat - 'A'.toNat + 10
  else 0

/-- Model of `fillColorHex.replace('#', '')`: remove the first occurrence of `#`. -/
def removeFirstHash : List Char → List Char
  | [] => []
  | c :: cs => if c = '#' then cs else c :: removeFirstHash cs

/-- Model of `parseInt(hex.substring(i, i+2), 16)` on a hex-digit string. -/
def parseHexByte (s : List Char) (i : Nat) : Nat :=
  16 * hexVal (s.getD i '0') + hexVal (s.getD (i + 1) '0')

/-- Red component of the parsed fill color. -/
def fillR (fillColorHex : List Char) : Nat := parseHexByte (removeFirstHash fillColorHex) 0

/-- Green component of the parsed fill color. -/
def fillG (fillColorHex : List Char) : Nat := parseHexByte (removeFirstHash fillColorHex) 2

/-- Blue component of the parsed fill color. -/
def fillB (fillColorHex : List Char) : Nat := parseHexByte (removeFirstHash fillColorHex) 4

/-- The fuel `floodFill` hands to the loop; proved sufficient below
(`floodLoop_total`). -/
def floodFuel (W H : Int) : Nat := 5 * (W * H).toNat + 2

/-- Function `floodFill` from `src/utils/floodFill.ts`, acting on the byte buffer the
context's `getImageData` returns (and whose mutation `putImageData` writes
back): parse `#rrggbb` with implicit alpha 255, read the reference color at the
seed, return the buffer unchanged if it already equals the fill color exactly,
else run the work-stack loop seeded with the click, over a fresh `Uint8Array`
visited grid of size `width * height`. -/
def floodFill (W H : Int) (startX startY : Int) (fillColorHex : List Char)
    (data : List Nat) : List Nat :=
  let r := fillR fillColorHex
  let g := fillG fillColorHex
  let b := fillB fillColorHex
  let a : Nat := 255
  let startPos : Int := (startY * W + startX) * 4
  let startR := getByte data startPos
  let startG := getByte data (startPos + 1)
  let startB := getByte data (startPos + 2)
  let startA := getByte data (startPos + 3)
  if startR = some r ∧ startG = some g ∧ startB = some b ∧ startA = some a then
    data
  else
    match floodLoop W H (byteVal startR) (byteVal startG) (byteVal startB) (byteVal startA)
        r g b a srcNbrs (floodFuel W H) data
        (List.replicate (W * H).toNat false) [(startX, startY)] with
    | some (d, _) => d
    | none => data

/-! ## Spec-side pixel-level view of a buffer -/

/-- The 4-channel color of pixel `i` in a flat RGBA buffer. -/
def pix (data : List Nat) (i : Nat) : Nat × Nat × Nat × Nat :=
  (data.getD (i * 4) 0, data.getD (i * 4 + 1) 0, data.getD (i * 4 + 2) 0,
   data.getD (i * 4 + 3) 0)

/-- The seed/bounds check of the source: `x ∈ [0, W)` and `y ∈ [0, H)`. -/
def inB (W H : Int) (p : Pt) : Prop :=
  0 ≤ p.1 ∧ p.1 < W ∧ 0 ≤ p.2 ∧ p.2 < H

instance (W H : Int) (p : Pt) : Decidable (inB W H p) := by
  unfold inB; infer_instance

/-- Linear pixel index `y * W + x` of an in-bounds coordinate. -/
def idx (W : Int) (p : Pt) : Nat := (p.2 * W + p.1).toNat

/-- Four-adjacency: `q` is one of the axis-aligned neighbors of `p`. -/
def adj (p q : Pt) : Prop :=
  q = (p.1 + 1, p.2) ∨ q = (p.1 - 1, p.2) ∨ q = (p.1, p.2 + 1) ∨ q = (p.1, p.2 - 1)

instance (p q : Pt) : Decidable (adj p q) := by
  unfold adj; infer_instance

/-- The pixels the flood can occupy: in bounds and within tolerance of the
reference color in the original buffer `d0`. -/
def goodPix (W H : Int) (d0 : List Nat) (sr sg sb sa : Int) (p : Pt) : Prop :=
  inB W H p ∧ matchColor d0 (idx W p * 4) sr sg sb sa = true

/-- Reachability from the seed through tolerance-matching in-bounds pixels:
the maximal 4-connected region the spec describes. -/
inductive Reach (good : Pt → Prop) (seed : Pt) : Pt → Prop where
  | seed : good seed → Reach good seed seed
  | step {p q : Pt} : Reach good seed p → adj p q → good q → Reach good seed q

/-! ## Canvas history and tools (`src/components/Canvas.tsx`) -/

/-- Enum `ToolType` from `src/types.ts`. -/
inductive ToolType where
  | PENCIL
  | BRUSH
  | ERASER
  | BUCKET
deriving DecidableEq

/-- The stroke color chosen by `draw` in `src/components/Canvas.tsx`:
`tool === ToolType.ERASER ? '#ffffff' : color`. -/
def strokeStyle (tool : ToolType) (color : List Char) : List Char :=
  if tool = ToolType.ERASER then "#ffffff".toList else color

/-- State update of `saveHistory`: append the snapshot, and if the resulting
length exceeds 20, `shift()` (drop index 0, the oldest). -/
def pushSnapshot {α : Type} (hist : List α) (snap : α) : List α :=
  let newHist := hist ++ [snap]
  if newHist.length > 20 then newHist.tail else newHist

/-- The undo effect of `Canvas.tsx` on the pair (current buffer, history):
when more than one snapshot is held, pop the last and restore the new last
snapshot; otherwise do nothing. -/
def undoStep {α : Type} (st : α × List α) : α × List α :=
  if st.2.length > 1 then
    match (st.2.dropLast).getLast? with
    | some prev => (prev, st.2.dropLast)
    | none => st
  else st

/-- The initialization effect: the history starts as the single snapshot of
the freshly prepared (blank or persisted-seed) buffer. -/
def initHistory {α : Type} (initial : α) : List α := [initial]

/-- A committed user gesture as it affects the (buffer, history) pair: a
gesture commit captures the new buffer and pushes it (`saveHistory`), an undo
runs the undo effect. -/
inductive HistOp (α : Type) where
  | commit (snap : α)
  | undo

/-- Apply one gesture to the (buffer, history) pair. -/
def applyOp {α : Type} (st : α × List α) : HistOp α → α × List α
  | .commit snap => (snap, pushSnapshot st.2 snap)
  | .undo => undoStep st

/-! ## History lemmas -/

/-- A `saveHistory` push below capacity grows the stack by one. -/
theorem pushSnapshot_length_of_lt {α : Type} (hist : List α) (s : α)
    (h : hist.length < 20) :
    (pushSnapshot hist s).length = hist.length + 1 := by
  simp only [pushSnapshot]
  rw [if_neg (by simp; omega)]
  simp

/-- A `saveHistory` push at (or beyond) capacity evicts the oldest snapshot,
keeping the length fixed. -/
theorem pushSnapshot_length_of_ge {α : Type} (hist : List α) (s : α)
    (h : 20 ≤ hist.length) :
    (pushSnapshot hist s).length = hist.length := by
  simp only [pushSnapshot]
  rw [if_pos (by simp; omega)]
  simp

/-- Length after a run of pushes starting at or below capacity. -/
theorem foldl_pushSnapshot_length {α : Type} (snaps : List α) (hist : List α)
    (h : hist.length ≤ 20) :
    (snaps.foldl pushSnapshot hist).length = min (hist.length + snaps.length) 20 := by
  induction snaps generalizing hist with
  | nil => simp; omega
  | cons s snaps ih =>
    rw [List.foldl_cons]
    by_cases hlt : hist.length < 20
    · rw [ih (pushSnapshot hist s) (by rw [pushSnapshot_length_of_lt hist s hlt]; omega),
        pushSnapshot_length_of_lt hist s hlt]
      simp
      omega
    · rw [ih (pushSnapshot hist s) (by rw [pushSnapshot_length_of_ge hist s (by omega)]; omega),
        pushSnapshot_length_of_ge hist s (by omega)]
      simp
      omega

/-- Undoing with more than one snapshot pops exactly one and restores the new
last snapshot. -/
theorem undoStep_of_two_le {α : Type} (buf : α) (hist : List α) (h : 2 ≤ hist.length) :
    undoStep (buf, hist) =
      (hist.dropLast.getLast (by
        intro hnil
        have hl := congrArg List.length hnil
        simp [List.length_dropLast] at hl
        omega), hist.dropLast) := by
  have hne : hist.dropLast ≠ [] := by
    intro hnil
    have hl := congrArg List.length hnil
    simp [List.length_dropLast] at hl
    omega
  simp only [undoStep]
  rw [if_pos (by simp; omega)]
  simp [List.getLast?_eq_getLast _ hne]

/-- Undo on a single-snapshot (or empty) history is the identity. -/
theorem undoStep_of_le_one {α : Type} (st : α × List α) (h : st.2.length ≤ 1) :
    undoStep st = st := by
  simp only [undoStep]
  rw [if_neg (by omega)]

/-- Iterated undo from `k + 1` snapshots reaches exactly one snapshot. -/
theorem iterate_undo_length {α : Type} :
    ∀ (k : Nat) (buf : α) (hist : List α), hist.length = k + 1 →
      (undoStep^[k] (buf, hist)).2.length = 1 := by
  intro k
  induction k with
  | zero => intro buf hist h; simpa using h
  | succ k ih =>
    intro buf hist h
    rw [Function.iterate_succ_apply, undoStep_of_two_le buf hist (by omega)]
    apply ih
    simp [List.length_dropLast]
    omega

/-- Every `saveHistory` push leaves a nonempty stack. -/
theorem pushSnapshot_pos {α : Type} (hist : List α) (s : α) :
    1 ≤ (pushSnapshot hist s).length := by
  by_cases h : hist.length < 20
  · rw [pushSnapshot_length_of_lt hist s h]; omega
  · rw [pushSnapshot_length_of_ge hist s (by omega)]; omega

/-- One gesture (commit or undo) keeps the history nonempty. -/
theorem applyOp_pos {α : Type} (st : α × List α) (op : HistOp α)
    (h : 1 ≤ st.2.length) : 1 ≤ (applyOp st op).2.length := by
  cases op with
  | commit snap => exact pushSnapshot_pos st.2 snap
  | undo =>
    by_cases h2 : 2 ≤ st.2.length
    · rcases st with ⟨buf, hist⟩
      have h2' : 2 ≤ hist.length := h2
      rw [show applyOp (buf, hist) HistOp.undo = undoStep (buf, hist) from rfl,
        undoStep_of_two_le buf hist h2']
      simp [List.length_dropLast]
      omega
    · rw [show applyOp st HistOp.undo = undoStep st from rfl,
        undoStep_of_le_one st (by omega)]
      exact h

/-- Any run of gestures keeps the history nonempty. -/
theorem foldl_applyOp_pos {α : Type} :
    ∀ (ops : List (HistOp α)) (st : α × List α), 1 ≤ st.2.length →
      1 ≤ (ops.foldl applyOp st).2.length := by
  intro ops
  induction ops with
  | nil => intro st h; simpa using h
  | cons op ops ih =>
    intro st h
    rw [List.foldl_cons]
    exact ih (applyOp st op) (applyOp_pos st op h)

/-- C6: the history stack never exceeds 20 entries: a push onto a stack of at
most 20 snapshots yields at most 20; and after pushing 25 snapshots onto the
initial single-snapshot history the stack holds exactly 20 snapshots, 19
repeated undos reach the single earliest reachable state, and a further undo is
a no-op. -/
theorem history_capacity_20 (α : Type) :
    (∀ (hist : List α) (s : α), hist.length ≤ 20 → (pushSnapshot hist s).length ≤ 20) ∧
    (∀ (init : α) (snaps : List α) (buf : α), snaps.length = 25 →
      (snaps.foldl pushSnapshot (initHistory init)).length = 20 ∧
      (undoStep^[19] (buf, snaps.foldl pushSnapshot (initHistory init))).2.length = 1 ∧
      undoStep (undoStep^[19] (buf, snaps.foldl pushSnapshot (initHistory init))) =
        undoStep^[19] (buf, snaps.foldl pushSnapshot (initHistory init))) := by
  constructor
  · intro hist s h
    by_cases hlt : hist.length < 20
    · rw [pushSnapshot_length_of_lt hist s hlt]; omega
    · rw [pushSnapshot_length_of_ge hist s (by omega)]; omega
  · intro init snaps buf h
    have hfold : (snaps.foldl pushSnapshot (initHistory init)).length = 20 := by
      rw [foldl_pushSnapshot_length snaps (initHistory init) (by simp [initHistory])]
      simp [initHistory, h]
    have hiter :
        (undoStep^[19] (buf, snaps.foldl pushSnapshot (initHistory init))).2.length = 1 :=
      iterate_undo_length 19 buf _ (by omega)
    exact ⟨hfold, hiter, undoStep_of_le_one _ (by omega)⟩

/-- C6 witness: concrete 25-push scenario over `Nat` snapshots. -/
theorem history_capacity_20_witness :
    ((List.replicate 20 (0 : Nat)).length ≤ 20 ∧
      (pushSnapshot (List.replicate 20 (0 : Nat)) 3).length ≤ 20) ∧
    ((List.replicate 25 (0 : Nat)).length = 25 ∧
      ((List.replicate 25 (0 : Nat)).foldl pushSnapshot (initHistory 7)).length = 20 ∧
      (undoStep^[19] (1, (List.replicate 25 (0 : Nat)).foldl pushSnapshot (initHistory 7))).2.length = 1 ∧
      undoStep (undoStep^[19] (1, (List.replicate 25 (0 : Nat)).foldl pushSnapshot (initHistory 7))) =
        undoStep^[19] (1, (List.replicate 25 (0 : Nat)).foldl pushSnapshot (initHistory 7))) :=
  ⟨⟨by decide, (history_capacity_20 Nat).1 _ 3 (by decide)⟩,
   ⟨by decide, (history_capacity_20 Nat).2 7 _ 1 (by decide)⟩⟩

/-- C7: undo on a history of length at most 1 is a no-op; on a history of
length at least 2 it removes the last snapshot (length drops by exactly 1) and
the restored buffer is the snapshot now at the top. -/
theorem undo_semantics {α : Type} (buf : α) (hist : List α) :
    (hist.length ≤ 1 → undoStep (buf, hist) = (buf, hist)) ∧
    (2 ≤ hist.length →
      (undoStep (buf, hist)).2 = hist.dropLast ∧
      (undoStep (buf, hist)).2.length + 1 = hist.length ∧
      (undoStep (buf, hist)).2.getLast? = some (undoStep (buf, hist)).1) := by
  constructor
  · intro h
    exact undoStep_of_le_one (buf, hist) h
  · intro h
    have hne : hist.dropLast ≠ [] := by
      intro hnil
      have hl := congrArg List.length hnil
      simp [List.length_dropLast] at hl
      omega
    rw [undoStep_of_two_le buf hist h]
    refine ⟨rfl, ?_, ?_⟩
    · simp [List.length_dropLast]; omega
    · simp [List.getLast?_eq_getLast _ hne]

/-- C7 witness: undo on `[1, 2, 3]` pops to `[1, 2]` and restores `2`; undo on
the single-snapshot history `[7]` is a no-op. -/
theorem undo_semantics_witness :
    (2 ≤ ([1, 2, 3] : List Nat).length ∧
      (undoStep ((0 : Nat), [1, 2, 3])).2 = [1, 2, 3].dropLast ∧
      (undoStep ((0 : Nat), [1, 2, 3])).2.length + 1 = [1, 2, 3].length ∧
      (undoStep ((0 : Nat), [1, 2, 3])).2.getLast? = some (undoStep ((0 : Nat), [1, 2, 3])).1) ∧
    (([7] : List Nat).length ≤ 1 ∧ undoStep ((5 : Nat), [7]) = (5, [7])) :=
  ⟨⟨by decide, (undo_semantics 0 [1, 2, 3]).2 (by decide)⟩,
   ⟨by decide, (undo_semantics 5 [7]).1 (by decide)⟩⟩

/-- C8: at surface creation the history holds exactly one snapshot, and after
any sequence of committed gestures and undos it is never empty. -/
theorem history_init_one_then_nonempty {α : Type} (s0 : α) :
    (initHistory s0).length = 1 ∧
    ∀ ops : List (HistOp α), 1 ≤ (ops.foldl applyOp (s0, initHistory s0)).2.length := by
  refine ⟨rfl, fun ops => ?_⟩
  exact foldl_applyOp_pos ops (s0, initHistory s0) (by simp [initHistory])

/-- C9: with the eraser active the stroke color is forced to the opaque white
background `#ffffff` (which parses to channels 255, 255, 255, with alpha
implicitly 255) regardless of the selected color; any other tool strokes with
the selected color. -/
theorem eraser_forces_white :
    (∀ color : List Char, strokeStyle ToolType.ERASER color = "#ffffff".toList) ∧
    (fillR "#ffffff".toList = 255 ∧ fillG "#ffffff".toList = 255 ∧
      fillB "#ffffff".toList = 255) ∧
    (∀ (tool : ToolType) (color : List Char), tool ≠ ToolType.ERASER →
      strokeStyle tool color = color) := by
  refine ⟨fun color => by simp [strokeStyle], by decide, fun tool color h => ?_⟩
  simp [strokeStyle, h]

/-- C9 witness: a concrete non-white color with the eraser and with the
pencil. -/
theorem eraser_forces_white_witness :
    strokeStyle ToolType.ERASER "#123456".toList = "#ffffff".toList ∧
    (ToolType.PENCIL ≠ ToolType.ERASER ∧
      strokeStyle ToolType.PENCIL "#123456".toList = "#123456".toList) :=
  ⟨eraser_forces_white.1 _, ⟨by decide, eraser_forces_white.2.2 _ _ (by decide)⟩⟩

/-! ## List-level helper lemmas for the flood-fill proofs -/

theorem listGetD_set_eq {α : Type} [Inhabited α] :
    ∀ (l : List α) (i : Nat) (v d : α), i < l.length → (l.set i v).getD i d = v := by
  intro l
  induction l with
  | nil => intro i v d h; simp at h
  | cons x xs ih =>
    intro i v d h
    cases i with
    | zero => simp [List.set, List.getD]
    | succ i =>
      simp only [List.set, List.getD_cons_succ]
      exact ih i v d (by simpa using h)

theorem listGetD_set_ne {α : Type} [Inhabited α] :
    ∀ (l : List α) (i j : Nat) (v d : α), i ≠ j → (l.set i v).getD j d = l.getD j d := by
  intro l
  induction l with
  | nil => intro i j v d h; simp [List.set]
  | cons x xs ih =>
    intro i j v d h
    cases i with
    | zero =>
      cases j with
      | zero => exact absurd rfl h
      | succ j => simp [List.set, List.getD_cons_succ]
    | succ i =>
      cases j with
      | zero => simp [List.set, List.getD]
      | succ j =>
        simp only [List.set, List.getD_cons_succ]
        exact ih i j v d (fun hc => h (by omega))

theorem listGetD_replicate_false (n i : Nat) :
    (List.replicate n false).getD i false = false := by
  induction n generalizing i with
  | zero => simp [List.getD]
  | succ n ih =>
    cases i with
    | zero => simp [List.replicate, List.getD]
    | succ i => simpa [List.replicate, List.getD_cons_succ] using ih i

/-- Setting a `false` cell to `true` drops the count of `false` cells by one. -/
theorem count_false_set_true :
    ∀ (l : List Bool) (i : Nat), i < l.length → l.getD i false = false →
      (l.set i true).count false + 1 = l.count false := by
  intro l
  induction l with
  | nil => intro i h; simp at h
  | cons x xs ih =>
    intro i h hf
    cases i with
    | zero =>
      simp [List.getD] at hf
      subst hf
      simp [List.set, List.count_cons]
    | succ i =>
      simp only [List.getD_cons_succ] at hf
      simp only [List.set, List.count_cons]
      have := ih i (by simpa using h) hf
      omega

/-! ## Unfolding lemmas for the work-stack loop -/

theorem floodLoop_nil (W H sr sg sb sa : Int) (r g b a : Nat)
    (nbrs : Int → Int → List Pt) (fuel : Nat) (data : List Nat) (seen : List Bool) :
    floodLoop W H sr sg sb sa r g b a nbrs (fuel + 1) data seen [] = some (data, seen) := rfl

theorem floodLoop_oob (W H sr sg sb sa : Int) (r g b a : Nat)
    (nbrs : Int → Int → List Pt) (fuel : Nat) (data : List Nat) (seen : List Bool)
    (x y : Int) (rest : List Pt) (h : x < 0 ∨ W ≤ x ∨ y < 0 ∨ H ≤ y) :
    floodLoop W H sr sg sb sa r g b a nbrs (fuel + 1) data seen ((x, y) :: rest)
      = floodLoop W H sr sg sb sa r g b a nbrs fuel data seen rest := by
  simp only [floodLoop]
  rw [if_pos h]

theorem floodLoop_seen (W H sr sg sb sa : Int) (r g b a : Nat)
    (nbrs : Int → Int → List Pt) (fuel : Nat) (data : List Nat) (seen : List Bool)
    (x y : Int) (rest : List Pt) (h : ¬(x < 0 ∨ W ≤ x ∨ y < 0 ∨ H ≤ y))
    (hs : seen.getD (y * W + x).toNat false = true) :
    floodLoop W H sr sg sb sa r g b a nbrs (fuel + 1) data seen ((x, y) :: rest)
      = floodLoop W H sr sg sb sa r g b a nbrs fuel data seen rest := by
  simp only [floodLoop]
  rw [if_neg h, if_pos hs]

theorem floodLoop_match (W H sr sg sb sa : Int) (r g b a : Nat)
    (nbrs : Int → Int → List Pt) (fuel : Nat) (data : List Nat) (seen : List Bool)
    (x y : Int) (rest : List Pt) (h : ¬(x < 0 ∨ W ≤ x ∨ y < 0 ∨ H ≤ y))
    (hs : ¬seen.getD (y * W + x).toNat false = true)
    (hm : matchColor data ((y * W + x) * 4).toNat sr sg sb sa = true) :
    floodLoop W H sr sg sb sa r g b a nbrs (fuel + 1) data seen ((x, y) :: rest)
      = floodLoop W H sr sg sb sa r g b a nbrs fuel
          (colorPixel data ((y * W + x) * 4).toNat r g b a)
          (seen.set (y * W + x).toNat true)
          (nbrs x y ++ rest) := by
  simp only [floodLoop]
  rw [if_neg h, if_neg (by simpa using hs), if_pos hm]

theorem floodLoop_nomatch (W H sr sg sb sa : Int) (r g b a : Nat)
    (nbrs : Int → Int → List Pt) (fuel : Nat) (data : List Nat) (seen : List Bool)
    (x y : Int) (rest : List Pt) (h : ¬(x < 0 ∨ W ≤ x ∨ y < 0 ∨ H ≤ y))
    (hs : ¬seen.getD (y * W + x).toNat false = true)
    (hm : ¬matchColor data ((y * W + x) * 4).toNat sr sg sb sa = true) :
    floodLoop W H sr sg sb sa r g b a nbrs (fuel + 1) data seen ((x, y) :: rest)
      = floodLoop W H sr sg sb sa r g b a nbrs fuel data seen rest := by
  simp only [floodLoop]
  rw [if_neg h, if_neg (by simpa using hs), if_neg (by simpa using hm)]

/-! ## Index arithmetic -/

theorem idx_lt (W H : Int) (p : Pt) (h : inB W H p) : idx W p < (W * H).toNat := by
  obtain ⟨hx0, hxW, hy0, hyH⟩ := h
  unfold idx
  have hW : 0 < W := by omega
  have hmul : 0 ≤ (H - 1 - p.2) * W :=
    mul_nonneg (by omega) (by omega)
  have h1 : p.2 * W + p.1 < W * H := by nlinarith
  have h2 : 0 ≤ p.2 * W + p.1 := by
    have := mul_nonneg hy0 (le_of_lt hW)
    omega
  omega

theorem idx_inj (W H : Int) (p q : Pt) (hp : inB W H p) (hq : inB W H q)
    (h : idx W p = idx W q) : p = q := by
  obtain ⟨px, py⟩ := p
  obtain ⟨qx, qy⟩ := q
  obtain ⟨hpx0, hpxW, hpy0, hpyH⟩ := hp
  obtain ⟨hqx0, hqxW, hqy0, hqyH⟩ := hq
  simp only [idx] at h
  have hW : 0 < W := by simp at hpx0 hpxW; omega
  simp only at hpx0 hpxW hpy0 hpyH hqx0 hqxW hqy0 hqyH
  have h0 : 0 ≤ py * W + px := by
    have := mul_nonneg hpy0 (le_of_lt hW)
    omega
  have h1 : 0 ≤ qy * W + qx := by
    have := mul_nonneg hqy0 (le_of_lt hW)
    omega
  have heq : py * W + px = qy * W + qx := by omega
  have hy : py = qy := by
    by_contra hne
    rcases lt_or_gt_of_ne hne with hlt | hgt
    · have := mul_le_mul_of_nonneg_right (show py + 1 ≤ qy by omega) (le_of_lt hW)
      nlinarith
    · have := mul_le_mul_of_nonneg_right (show qy + 1 ≤ py by omega) (le_of_lt hW)
      nlinarith
  subst hy
  have hx : px = qx := by omega
  simp [hx]

/-! ## Pixel-level effect of `colorPixel` -/

theorem colorPixel_length (data : List Nat) (pos r g b a : Nat) :
    (colorPixel data pos r g b a).length = data.length := by
  simp [colorPixel]

theorem colorPixel_getD_other (data : List Nat) (p k r g b a : Nat)
    (h0 : k ≠ p) (h1 : k ≠ p + 1) (h2 : k ≠ p + 2) (h3 : k ≠ p + 3) :
    (colorPixel data p r g b a).getD k 0 = data.getD k 0 := by
  unfold colorPixel
  rw [listGetD_set_ne, listGetD_set_ne, listGetD_set_ne, listGetD_set_ne] <;> omega

theorem pix_colorPixel_self (data : List Nat) (i r g b a : Nat)
    (h : i * 4 + 3 < data.length) :
    pix (colorPixel data (i * 4) r g b a) i = (r, g, b, a) := by
  unfold pix colorPixel
  have e0 : ((((data.set (i*4) r).set (i*4+1) g).set (i*4+2) b).set (i*4+3) a).getD (i*4) 0 = r := by
    rw [listGetD_set_ne, listGetD_set_ne, listGetD_set_ne, listGetD_set_eq] <;> omega
  have e1 : ((((data.set (i*4) r).set (i*4+1) g).set (i*4+2) b).set (i*4+3) a).getD (i*4+1) 0 = g := by
    rw [listGetD_set_ne, listGetD_set_ne, listGetD_set_eq] <;> simp <;> omega
  have e2 : ((((data.set (i*4) r).set (i*4+1) g).set (i*4+2) b).set (i*4+3) a).getD (i*4+2) 0 = b := by
    rw [listGetD_set_ne, listGetD_set_eq] <;> simp <;> omega
  have e3 : ((((data.set (i*4) r).set (i*4+1) g).set (i*4+2) b).set (i*4+3) a).getD (i*4+3) 0 = a := by
    rw [listGetD_set_eq] <;> simp <;> omega
  rw [e0, e1, e2, e3]

theorem pix_colorPixel_other (data : List Nat) (i j r g b a : Nat) (h : i ≠ j) :
    pix (colorPixel data (i * 4) r g b a) j = pix data j := by
  unfold pix
  rw [colorPixel_getD_other, colorPixel_getD_other, colorPixel_getD_other,
    colorPixel_getD_other] <;> omega

/-- The predicate `matchColor` looks only at the 4 bytes of its pixel. -/
theorem matchColor_congr (d d' : List Nat) (i : Nat) (sr sg sb sa : Int)
    (h : pix d i = pix d' i) :
    matchColor d (i * 4) sr sg sb sa = matchColor d' (i * 4) sr sg sb sa := by
  unfold pix at h
  simp only [Prod.mk.injEq] at h
  obtain ⟨h0, h1, h2, h3⟩ := h
  unfold matchColor
  rw [h0, h1, h2, h3]

/-- Failing the source's bounds/skip test means the coordinate is in bounds. -/
theorem inB_of_not_oob (W H x y : Int) (h : ¬(x < 0 ∨ W ≤ x ∨ y < 0 ∨ H ≤ y)) :
    inB W H (x, y) := by
  push_neg at h
  exact ⟨h.1, h.2.1, h.2.2.1, h.2.2.2⟩

/-- Termination of the work-stack loop: with measure
`5 * (unmarked cells) + (stack size)` strictly below the fuel, the loop
completes.  Holds for any neighbor-push order that pushes 4 coordinates. -/
theorem floodLoop_total (W H sr sg sb sa : Int) (r g b a : Nat)
    (nbrs : Int → Int → List Pt) (hn : ∀ x y, (nbrs x y).length = 4) :
    ∀ (fuel : Nat) (data : List Nat) (seen : List Bool) (stack : List Pt),
      (W * H).toNat ≤ seen.length →
      5 * seen.count false + stack.length < fuel →
      ∃ out, floodLoop W H sr sg sb sa r g b a nbrs fuel data seen stack = some out := by
  intro fuel
  induction fuel with
  | zero => intro data seen stack hlen h; omega
  | succ fuel ih =>
    intro data seen stack hlen h
    rcases stack with _ | ⟨⟨x, y⟩, rest⟩
    · exact ⟨(data, seen), floodLoop_nil W H sr sg sb sa r g b a nbrs fuel data seen⟩
    · simp only [List.length_cons] at h
      by_cases hb : x < 0 ∨ W ≤ x ∨ y < 0 ∨ H ≤ y
      · rw [floodLoop_oob W H sr sg sb sa r g b a nbrs fuel data seen x y rest hb]
        exact ih data seen rest hlen (by omega)
      · by_cases hs : seen.getD (y * W + x).toNat false = true
        · rw [floodLoop_seen W H sr sg sb sa r g b a nbrs fuel data seen x y rest hb hs]
          exact ih data seen rest hlen (by omega)
        · by_cases hm : matchColor data ((y * W + x) * 4).toNat sr sg sb sa = true
          · rw [floodLoop_match W H sr sg sb sa r g b a nbrs fuel data seen x y rest hb hs hm]
            have hidx : (y * W + x).toNat < (W * H).toNat :=
              idx_lt W H (x, y) (inB_of_not_oob W H x y hb)
            have hcount := count_false_set_true seen (y * W + x).toNat
              (lt_of_lt_of_le hidx hlen) (by simpa using hs)
            refine ih _ _ _ (by rw [List.length_set]; exact hlen) ?_
            rw [List.length_append, hn x y]
            omega
          · rw [floodLoop_nomatch W H sr sg sb sa r g b a nbrs fuel data seen x y rest hb hs hm]
            exact ih data seen rest hlen (by omega)

/-- The loop never changes the byte-buffer length or the marker-grid length. -/
theorem floodLoop_lengths (W H sr sg sb sa : Int) (r g b a : Nat)
    (nbrs : Int → Int → List Pt) :
    ∀ (fuel : Nat) (data : List Nat) (seen : List Bool) (stack : List Pt)
      (dout : List Nat) (sout : List Bool),
      floodLoop W H sr sg sb sa r g b a nbrs fuel data seen stack = some (dout, sout) →
      dout.length = data.length ∧ sout.length = seen.length := by
  intro fuel
  induction fuel with
  | zero => intro data seen stack dout sout h; simp [floodLoop] at h
  | succ fuel ih =>
    intro data seen stack dout sout h
    rcases stack with _ | ⟨⟨x, y⟩, rest⟩
    · rw [floodLoop_nil] at h
      obtain ⟨rfl, rfl⟩ : data = dout ∧ seen = sout := by simpa using h
      exact ⟨rfl, rfl⟩
    · by_cases hb : x < 0 ∨ W ≤ x ∨ y < 0 ∨ H ≤ y
      · rw [floodLoop_oob W H sr sg sb sa r g b a nbrs fuel data seen x y rest hb] at h
        exact ih data seen rest dout sout h
      · by_cases hs : seen.getD (y * W + x).toNat false = true
        · rw [floodLoop_seen W H sr sg sb sa r g b a nbrs fuel data seen x y rest hb hs] at h
          exact ih data seen rest dout sout h
        · by_cases hm : matchColor data ((y * W + x) * 4).toNat sr sg sb sa = true
          · rw [floodLoop_match W H sr sg sb sa r g b a nbrs fuel data seen x y rest hb hs hm] at h
            obtain ⟨h1, h2⟩ := ih _ _ _ dout sout h
            rw [colorPixel_length] at h1
            rw [List.length_set] at h2
            exact ⟨h1, h2⟩
          · rw [floodLoop_nomatch W H sr sg sb sa r g b a nbrs fuel data seen x y rest hb hs hm] at h
            exact ih data seen rest dout sout h

/-! ## The flood-fill loop invariant -/

theorem Reach_good {good : Pt → Prop} {seed p : Pt} (h : Reach good seed p) : good p := by
  cases h with
  | seed hg => exact hg
  | step _ _ hg => exact hg

theorem toNat_mul_four (v : Int) (h : 0 ≤ v) : (v * 4).toNat = v.toNat * 4 := by omega

theorem idxInt_nonneg (W H : Int) (p : Pt) (h : inB W H p) : 0 ≤ p.2 * W + p.1 := by
  obtain ⟨hx0, hxW, hy0, hyH⟩ := h
  have hW : 0 < W := by omega
  have := mul_nonneg hy0 (le_of_lt hW)
  omega

/-- Marking one cell never unmarks another. -/
theorem listGetD_set_true_mono :
    ∀ (l : List Bool) (i j : Nat), l.getD j false = true →
      (l.set i true).getD j false = true := by
  intro l
  induction l with
  | nil => intro i j h; simp [List.getD] at h
  | cons x xs ih =>
    intro i j h
    cases i with
    | zero =>
      cases j with
      | zero => simp [List.set, List.getD]
      | succ j => simpa [List.set, List.getD_cons_succ] using h
    | succ i =>
      cases j with
      | zero => simpa [List.set, List.getD] using h
      | succ j =>
        simp only [List.set, List.getD_cons_succ] at h ⊢
        exact ih i j h

/-- The invariant maintained by the work-stack loop, relating the current byte
buffer `data`, marker grid `seen` and pending stack to the original buffer
`d0`, the reference color `(sr, sg, sb, sa)` read at the seed, and the fill
color `(r, g, b, a)`. -/
structure FillInv (W H : Int) (sr sg sb sa : Int) (r g b a : Nat) (d0 : List Nat)
    (seed : Pt) (data : List Nat) (seen : List Bool) (stack : List Pt) : Prop where
  seenLen : seen.length = (W * H).toNat
  dataLen : data.length = d0.length
  d0Len : d0.length = (W * H).toNat * 4
  sound : ∀ p : Pt, inB W H p → seen.getD (idx W p) false = true →
    Reach (goodPix W H d0 sr sg sb sa) seed p
  paint : ∀ p : Pt, inB W H p → seen.getD (idx W p) false = true →
    pix data (idx W p) = (r, g, b, a)
  keep : ∀ p : Pt, inB W H p → seen.getD (idx W p) false = false →
    pix data (idx W p) = pix d0 (idx W p)
  closure : ∀ p q : Pt, inB W H p → seen.getD (idx W p) false = true → adj p q →
    goodPix W H d0 sr sg sb sa q → seen.getD (idx W q) false = true ∨ q ∈ stack
  seedInv : goodPix W H d0 sr sg sb sa seed →
    seen.getD (idx W seed) false = true ∨ seed ∈ stack
  stackInv : ∀ t ∈ stack, t = seed ∨ ∃ s : Pt, inB W H s ∧
    seen.getD (idx W s) false = true ∧ adj s t

section FloodInvariant

variable (W H sr sg sb sa : Int) (r g b a : Nat) (d0 : List Nat) (seed : Pt)

theorem not_inB_of_oob (x y : Int) (h : x < 0 ∨ W ≤ x ∨ y < 0 ∨ H ≤ y) :
    ¬inB W H (x, y) := by
  intro hi
  obtain ⟨h1, h2, h3, h4⟩ := hi
  simp only at h1 h2 h3 h4
  rcases h with h | h | h | h <;> omega

/-- Popping an out-of-bounds coordinate preserves the invariant. -/
theorem FillInv_pop_oob (data : List Nat) (seen : List Bool) (x y : Int) (rest : List Pt)
    (inv : FillInv W H sr sg sb sa r g b a d0 seed data seen ((x, y) :: rest))
    (hb : x < 0 ∨ W ≤ x ∨ y < 0 ∨ H ≤ y) :
    FillInv W H sr sg sb sa r g b a d0 seed data seen rest := by
  have hnb := not_inB_of_oob W H x y hb
  refine ⟨inv.seenLen, inv.dataLen, inv.d0Len, inv.sound, inv.paint, inv.keep, ?_, ?_, ?_⟩
  · intro p q hp hsp hadj hgq
    rcases inv.closure p q hp hsp hadj hgq with h | h
    · exact Or.inl h
    · rcases List.mem_cons.mp h with h | h
      · exact absurd (h ▸ hgq.1) hnb
      · exact Or.inr h
  · intro hgs
    rcases inv.seedInv hgs with h | h
    · exact Or.inl h
    · rcases List.mem_cons.mp h with h | h
      · exact absurd (h ▸ hgs.1) hnb
      · exact Or.inr h
  · intro t ht
    exact inv.stackInv t (List.mem_cons_of_mem _ ht)

/-- Popping an already-visited coordinate preserves the invariant. -/
theorem FillInv_pop_seen (data : List Nat) (seen : List Bool) (x y : Int) (rest : List Pt)
    (inv : FillInv W H sr sg sb sa r g b a d0 seed data seen ((x, y) :: rest))
    (hs : seen.getD (idx W (x, y)) false = true) :
    FillInv W H sr sg sb sa r g b a d0 seed data seen rest := by
  refine ⟨inv.seenLen, inv.dataLen, inv.d0Len, inv.sound, inv.paint, inv.keep, ?_, ?_, ?_⟩
  · intro p q hp hsp hadj hgq
    rcases inv.closure p q hp hsp hadj hgq with h | h
    · exact Or.inl h
    · rcases List.mem_cons.mp h with h | h
      · subst h; exact Or.inl hs
      · exact Or.inr h
  · intro hgs
    rcases inv.seedInv hgs with h | h
    · exact Or.inl h
    · rcases List.mem_cons.mp h with h | h
      · subst h; exact Or.inl hs
      · exact Or.inr h
  · intro t ht
    exact inv.stackInv t (List.mem_cons_of_mem _ ht)

/-- Popping an unvisited in-bounds coordinate that fails the tolerance test
(a boundary pixel) preserves the invariant: such a pixel is not `goodPix`. -/
theorem FillInv_pop_nomatch (data : List Nat) (seen : List Bool) (x y : Int) (rest : List Pt)
    (inv : FillInv W H sr sg sb sa r g b a d0 seed data seen ((x, y) :: rest))
    (hbi : inB W H (x, y))
    (hs : seen.getD (idx W (x, y)) false = false)
    (hm : matchColor data (idx W (x, y) * 4) sr sg sb sa = false) :
    FillInv W H sr sg sb sa r g b a d0 seed data seen rest := by
  have hnm : ¬goodPix W H d0 sr sg sb sa (x, y) := by
    intro hg
    have hk := inv.keep (x, y) hbi hs
    have := matchColor_congr data d0 (idx W (x, y)) sr sg sb sa hk
    rw [this, hg.2] at hm
    exact Bool.true_eq_false.mp hm
  refine ⟨inv.seenLen, inv.dataLen, inv.d0Len, inv.sound, inv.paint, inv.keep, ?_, ?_, ?_⟩
  · intro p q hp hsp hadj hgq
    rcases inv.closure p q hp hsp hadj hgq with h | h
    · exact Or.inl h
    · rcases List.mem_cons.mp h with h | h
      · exact absurd (h ▸ hgq) hnm
      · exact Or.inr h
  · intro hgs
    rcases inv.seedInv hgs with h | h
    · exact Or.inl h
    · rcases List.mem_cons.mp h with h | h
      · exact absurd (h ▸ hgs) hnm
      · exact Or.inr h
  · intro t ht
    exact inv.stackInv t (List.mem_cons_of_mem _ ht)

/-- Popping an unvisited in-bounds coordinate that passes the tolerance test:
repainting it, marking it seen and pushing its neighbors preserves the
invariant, for any neighbor-push order that pushes exactly the 4-adjacent
coordinates. -/
theorem FillInv_pop_match (data : List Nat) (seen : List Bool) (x y : Int) (rest : List Pt)
    (nbrs : Int → Int → List Pt) (hn : ∀ u v q, q ∈ nbrs u v ↔ adj (u, v) q)
    (inv : FillInv W H sr sg sb sa r g b a d0 seed data seen ((x, y) :: rest))
    (hbi : inB W H (x, y))
    (hs : seen.getD (idx W (x, y)) false = false)
    (hm : matchColor data (idx W (x, y) * 4) sr sg sb sa = true) :
    FillInv W H sr sg sb sa r g b a d0 seed
      (colorPixel data (idx W (x, y) * 4) r g b a)
      (seen.set (idx W (x, y)) true)
      (nbrs x y ++ rest) := by
  have hmd0 : matchColor d0 (idx W (x, y) * 4) sr sg sb sa = true := by
    rw [← matchColor_congr data d0 (idx W (x, y)) sr sg sb sa (inv.keep (x, y) hbi hs)]
    exact hm
  have hgt : goodPix W H d0 sr sg sb sa (x, y) := ⟨hbi, hmd0⟩
  have hidxlt : idx W (x, y) < seen.length := by
    rw [inv.seenLen]; exact idx_lt W H (x, y) hbi
  have hbyte : idx W (x, y) * 4 + 3 < data.length := by
    have := idx_lt W H (x, y) hbi
    rw [inv.dataLen, inv.d0Len]
    omega
  have hreach : Reach (goodPix W H d0 sr sg sb sa) seed (x, y) := by
    rcases inv.stackInv (x, y) (List.mem_cons_self _ _) with h | ⟨s, hsb, hss, hadj⟩
    · exact h ▸ Reach.seed hgt
    · exact Reach.step (inv.sound s hsb hss) hadj hgt
  refine ⟨?_, ?_, inv.d0Len, ?_, ?_, ?_, ?_, ?_, ?_⟩
  · rw [List.length_set]; exact inv.seenLen
  · rw [colorPixel_length]; exact inv.dataLen
  · -- sound
    intro p hp hsp
    by_cases he : idx W p = idx W (x, y)
    · rw [idx_inj W H p (x, y) hp hbi he]
      exact hreach
    · rw [listGetD_set_ne seen (idx W (x, y)) (idx W p) true false (fun hc => he hc.symm)] at hsp
      exact inv.sound p hp hsp
  · -- paint
    intro p hp hsp
    by_cases he : idx W p = idx W (x, y)
    · rw [he]
      exact pix_colorPixel_self data (idx W (x, y)) r g b a hbyte
    · rw [pix_colorPixel_other data (idx W (x, y)) (idx W p) r g b a (fun hc => he hc.symm)]
      rw [listGetD_set_ne seen (idx W (x, y)) (idx W p) true false (fun hc => he hc.symm)] at hsp
      exact inv.paint p hp hsp
  · -- keep
    intro p hp hsp
    have he : idx W p ≠ idx W (x, y) := by
      intro hc
      rw [hc, listGetD_set_eq seen (idx W (x, y)) true false hidxlt] at hsp
      exact Bool.true_eq_false.mp hsp
    rw [pix_colorPixel_other data (idx W (x, y)) (idx W p) r g b a (fun hc => he hc.symm)]
    rw [listGetD_set_ne seen (idx W (x, y)) (idx W p) true false (fun hc => he hc.symm)] at hsp
    exact inv.keep p hp hsp
  · -- closure
    intro p q hp hsp hadj hgq
    by_cases he : idx W p = idx W (x, y)
    · have hpt : p = (x, y) := idx_inj W H p (x, y) hp hbi he
      subst hpt
      exact Or.inr (List.mem_append_left rest ((hn x y q).mpr hadj))
    · rw [listGetD_set_ne seen (idx W (x, y)) (idx W p) true false (fun hc => he hc.symm)] at hsp
      rcases inv.closure p q hp hsp hadj hgq with h | h
      · exact Or.inl (listGetD_set_true_mono seen (idx W (x, y)) (idx W q) h)
      · rcases List.mem_cons.mp h with h | h
        · subst h
          exact Or.inl (listGetD_set_eq seen (idx W (x, y)) true false hidxlt)
        · exact Or.inr (List.mem_append_right _ h)
  · -- seedInv
    intro hgs
    rcases inv.seedInv hgs with h | h
    · exact Or.inl (listGetD_set_true_mono seen (idx W (x, y)) (idx W seed) h)
    · rcases List.mem_cons.mp h with h | h
      · subst h
        exact Or.inl (listGetD_set_eq seen (idx W (x, y)) true false hidxlt)
      · exact Or.inr (List.mem_append_right _ h)
  · -- stackInv
    intro u hu
    rcases List.mem_append.mp hu with h | h
    · exact Or.inr ⟨(x, y), hbi,
        listGetD_set_eq seen (idx W (x, y)) true false hidxlt, (hn x y u).mp h⟩
    · rcases inv.stackInv u (List.mem_cons_of_mem _ h) with h1 | ⟨s, h1, h2, h3⟩
      · exact Or.inl h1
      · exact Or.inr ⟨s, h1, listGetD_set_true_mono seen (idx W (x, y)) (idx W s) h2, h3⟩

/-- Running the work-stack loop from a state satisfying the invariant yields
the canonical result: the marker grid ends up holding exactly the reachable
region, every reachable pixel is repainted with the fill color, and every
other pixel keeps its original bytes. -/
theorem floodLoop_invariant (nbrs : Int → Int → List Pt)
    (hn : ∀ u v q, q ∈ nbrs u v ↔ adj (u, v) q) :
    ∀ (fuel : Nat) (data : List Nat) (seen : List Bool) (stack : List Pt)
      (dout : List Nat) (sout : List Bool),
      FillInv W H sr sg sb sa r g b a d0 seed data seen stack →
      floodLoop W H sr sg sb sa r g b a nbrs fuel data seen stack = some (dout, sout) →
      (∀ p : Pt, inB W H p →
        (sout.getD (idx W p) false = true ↔ Reach (goodPix W H d0 sr sg sb sa) seed p)) ∧
      dout.length = d0.length ∧
      (∀ p : Pt, inB W H p → Reach (goodPix W H d0 sr sg sb sa) seed p →
        pix dout (idx W p) = (r, g, b, a)) ∧
      (∀ p : Pt, inB W H p → ¬Reach (goodPix W H d0 sr sg sb sa) seed p →
        pix dout (idx W p) = pix d0 (idx W p)) := by
  intro fuel
  induction fuel with
  | zero => intro data seen stack dout sout inv h; simp [floodLoop] at h
  | succ fuel ih =>
    intro data seen stack dout sout inv h
    rcases stack with _ | ⟨⟨x, y⟩, rest⟩
    · rw [floodLoop_nil] at h
      obtain ⟨rfl, rfl⟩ : data = dout ∧ seen = sout := by simpa using h
      have hRS : ∀ p : Pt, Reach (goodPix W H d0 sr sg sb sa) seed p →
          seen.getD (idx W p) false = true := by
        intro p hr
        induction hr with
        | seed hg =>
          rcases inv.seedInv hg with h1 | h1
          · exact h1
          · simp at h1
        | step hp hadj hg ihp =>
          have hgp := Reach_good hp
          rcases inv.closure _ _ hgp.1 ihp hadj hg with h1 | h1
          · exact h1
          · simp at h1
      refine ⟨?_, inv.dataLen, ?_, ?_⟩
      · intro p hp
        exact ⟨inv.sound p hp, hRS p⟩
      · intro p hp hr
        exact inv.paint p hp (hRS p hr)
      · intro p hp hr
        have hf : seen.getD (idx W p) false = false := by
          cases hbv : seen.getD (idx W p) false
          · rfl
          · exact absurd (inv.sound p hp hbv) hr
        exact inv.keep p hp hf
    · by_cases hb : x < 0 ∨ W ≤ x ∨ y < 0 ∨ H ≤ y
      · rw [floodLoop_oob W H sr sg sb sa r g b a nbrs fuel data seen x y rest hb] at h
        exact ih data seen rest dout sout
          (FillInv_pop_oob W H sr sg sb sa r g b a d0 seed data seen x y rest inv hb) h
      · have hbi : inB W H (x, y) := inB_of_not_oob W H x y hb
        have h0 : 0 ≤ y * W + x := idxInt_nonneg W H (x, y) hbi
        by_cases hs : seen.getD (y * W + x).toNat false = true
        · rw [floodLoop_seen W H sr sg sb sa r g b a nbrs fuel data seen x y rest hb hs] at h
          exact ih data seen rest dout sout
            (FillInv_pop_seen W H sr sg sb sa r g b a d0 seed data seen x y rest inv hs) h
        · have hs' : seen.getD (idx W (x, y)) false = false := by simpa using hs
          by_cases hm : matchColor data ((y * W + x) * 4).toNat sr sg sb sa = true
          · rw [floodLoop_match W H sr sg sb sa r g b a nbrs fuel data seen x y rest hb hs hm,
              toNat_mul_four (y * W + x) h0] at h
            have hm' : matchColor data (idx W (x, y) * 4) sr sg sb sa = true := by
              rw [show idx W (x, y) * 4 = ((y * W + x) * 4).toNat from
                (toNat_mul_four _ h0).symm]
              exact hm
            exact ih _ _ _ dout sout
              (FillInv_pop_match W H sr sg sb sa r g b a d0 seed data seen x y rest
                nbrs hn inv hbi hs' hm') h
          · have hm' : matchColor data (idx W (x, y) * 4) sr sg sb sa = false := by
              have hf : matchColor data ((y * W + x) * 4).toNat sr sg sb sa = false := by
                simpa using hm
              rw [toNat_mul_four _ h0] at hf
              exact hf
            rw [floodLoop_nomatch W H sr sg sb sa r g b a nbrs fuel data seen x y rest
              hb hs hm] at h
            exact ih data seen rest dout sout
              (FillInv_pop_nomatch W H sr sg sb sa r g b a d0 seed data seen x y rest
                inv hbi hs' hm') h

end FloodInvariant

/-! ## From `floodFill` to the loop -/

theorem oob_of_not_inB (W H x y : Int) (h : ¬inB W H (x, y)) :
    x < 0 ∨ W ≤ x ∨ y < 0 ∨ H ≤ y := by
  by_contra h2
  exact h (inB_of_not_oob W H x y h2)

theorem getByte_eq_some (data : List Nat) (i : Int) (h0 : 0 ≤ i)
    (hlt : i.toNat < data.length) :
    getByte data i = some (data.getD i.toNat 0) := by
  unfold getByte
  rw [if_pos h0, List.getElem?_eq_getElem hlt, List.getD_eq_getElem data 0 hlt]

/-- The invariant holds at loop entry: fresh marker grid, the original buffer,
and the seed alone on the stack. -/
theorem FillInv_init (W H sr sg sb sa : Int) (r g b a : Nat) (d0 : List Nat) (seed : Pt)
    (hlen : d0.length = (W * H).toNat * 4) :
    FillInv W H sr sg sb sa r g b a d0 seed d0
      (List.replicate (W * H).toNat false) [seed] := by
  refine ⟨by simp, rfl, hlen, ?_, ?_, ?_, ?_, ?_, ?_⟩
  · intro p _ hsp
    rw [listGetD_replicate_false] at hsp
    exact absurd hsp (by simp)
  · intro p _ hsp
    rw [listGetD_replicate_false] at hsp
    exact absurd hsp (by simp)
  · intro p _ _
    rfl
  · intro p q _ hsp _ _
    rw [listGetD_replicate_false] at hsp
    exact absurd hsp (by simp)
  · intro _
    exact Or.inr (List.mem_singleton.mpr rfl)
  · intro t ht
    exact Or.inl (List.mem_singleton.mp ht)

/-- The list `srcNbrs` holds exactly the 4-adjacent coordinates. -/
theorem srcNbrs_mem (u v : Int) (q : Pt) : q ∈ srcNbrs u v ↔ adj (u, v) q := by
  simp [srcNbrs, adj]
  tauto

theorem srcNbrs_length (u v : Int) : (srcNbrs u v).length = 4 := rfl

/-- Reduction of `floodFill` when the seed color equals the fill color. -/
theorem floodFill_eq_same (W H sx sy : Int) (hex : List Char) (data : List Nat)
    (hcond : getByte data ((sy * W + sx) * 4) = some (fillR hex) ∧
      getByte data ((sy * W + sx) * 4 + 1) = some (fillG hex) ∧
      getByte data ((sy * W + sx) * 4 + 2) = some (fillB hex) ∧
      getByte data ((sy * W + sx) * 4 + 3) = some 255) :
    floodFill W H sx sy hex data = data := by
  simp only [floodFill]
  rw [if_pos hcond]

/-- Reduction of `floodFill` to the loop result when the seed color differs
from the fill color. -/
theorem floodFill_eq_loop (W H sx sy : Int) (hex : List Char) (data : List Nat)
    (dout : List Nat) (sout : List Bool)
    (hcond : ¬(getByte data ((sy * W + sx) * 4) = some (fillR hex) ∧
      getByte data ((sy * W + sx) * 4 + 1) = some (fillG hex) ∧
      getByte data ((sy * W + sx) * 4 + 2) = some (fillB hex) ∧
      getByte data ((sy * W + sx) * 4 + 3) = some 255))
    (hloop : floodLoop W H (byteVal (getByte data ((sy * W + sx) * 4)))
      (byteVal (getByte data ((sy * W + sx) * 4 + 1)))
      (byteVal (getByte data ((sy * W + sx) * 4 + 2)))
      (byteVal (getByte data ((sy * W + sx) * 4 + 3)))
      (fillR hex) (fillG hex) (fillB hex) 255 srcNbrs (floodFuel W H) data
      (List.replicate (W * H).toNat false) [(sx, sy)] = some (dout, sout)) :
    floodFill W H sx sy hex data = dout := by
  simp only [floodFill]
  rw [if_neg hcond, hloop]

theorem getByte_pix (data : List Nat) (v : Int) (h0 : 0 ≤ v)
    (hlt : v.toNat * 4 + 3 < data.length) :
    getByte data (v * 4) = some (pix data v.toNat).1 ∧
    getByte data (v * 4 + 1) = some (pix data v.toNat).2.1 ∧
    getByte data (v * 4 + 2) = some (pix data v.toNat).2.2.1 ∧
    getByte data (v * 4 + 3) = some (pix data v.toNat).2.2.2 := by
  have e0 : (v * 4).toNat = v.toNat * 4 := by omega
  have e1 : (v * 4 + 1).toNat = v.toNat * 4 + 1 := by omega
  have e2 : (v * 4 + 2).toNat = v.toNat * 4 + 2 := by omega
  have e3 : (v * 4 + 3).toNat = v.toNat * 4 + 3 := by omega
  refine ⟨?_, ?_, ?_, ?_⟩
  · rw [getByte_eq_some data (v * 4) (by omega) (by omega), e0]; rfl
  · rw [getByte_eq_some data (v * 4 + 1) (by omega) (by omega), e1]; rfl
  · rw [getByte_eq_some data (v * 4 + 2) (by omega) (by omega), e2]; rfl
  · rw [getByte_eq_some data (v * 4 + 3) (by omega) (by omega), e3]; rfl

/-- The color of the seed pixel (the "reference color" read by `floodFill`). -/
def seedColor (W : Int) (data : List Nat) (seed : Pt) : Nat × Nat × Nat × Nat :=
  pix data (idx W seed)

/-- The region predicate of the spec: in bounds and within squared-distance
tolerance of the seed pixel's original color. -/
def seedGood (W H : Int) (data : List Nat) (seed : Pt) : Pt → Prop :=
  goodPix W H data ((seedColor W data seed).1 : Int) ((seedColor W data seed).2.1 : Int)
    ((seedColor W data seed).2.2.1 : Int) ((seedColor W data seed).2.2.2 : Int)

/-- C1: for a well-formed buffer, an in-bounds seed, and a fill color that
differs from the seed pixel's color, `floodFill` repaints exactly the maximal
4-connected region reachable from the seed through pixels whose original color
matches the reference color under the tolerance predicate, leaves every other
pixel byte-identical, and preserves the buffer length; moreover the same final
buffer results from the work-stack loop under any neighbor-push order, so the
result is independent of the push order. -/
theorem floodFill_region (W H sx sy : Int) (hex : List Char) (data : List Nat)
    (hlen : data.length = (W * H).toNat * 4)
    (hseed : inB W H (sx, sy))
    (hneq : pix data (idx W (sx, sy)) ≠ (fillR hex, fillG hex, fillB hex, 255)) :
    ((floodFill W H sx sy hex data).length = data.length ∧
      ∀ p : Pt, inB W H p →
        (Reach (seedGood W H data (sx, sy)) (sx, sy) p →
          pix (floodFill W H sx sy hex data) (idx W p) =
            (fillR hex, fillG hex, fillB hex, 255)) ∧
        (¬Reach (seedGood W H data (sx, sy)) (sx, sy) p →
          pix (floodFill W H sx sy hex data) (idx W p) = pix data (idx W p))) ∧
    (∀ nbrs : Int → Int → List Pt, (∀ u v q, q ∈ nbrs u v ↔ adj (u, v) q) →
      ∀ (fuel : Nat) (dout : List Nat) (sout : List Bool),
        floodLoop W H ((seedColor W data (sx, sy)).1 : Int)
            ((seedColor W data (sx, sy)).2.1 : Int)
            ((seedColor W data (sx, sy)).2.2.1 : Int)
            ((seedColor W data (sx, sy)).2.2.2 : Int)
            (fillR hex) (fillG hex) (fillB hex) 255 nbrs fuel data
            (List.replicate (W * H).toNat false) [(sx, sy)] = some (dout, sout) →
        ∀ p : Pt, inB W H p →
          (Reach (seedGood W H data (sx, sy)) (sx, sy) p →
            pix dout (idx W p) = (fillR hex, fillG hex, fillB hex, 255)) ∧
          (¬Reach (seedGood W H data (sx, sy)) (sx, sy) p →
            pix dout (idx W p) = pix data (idx W p))) := by
  have hgen : ∀ nbrs : Int → Int → List Pt, (∀ u v q, q ∈ nbrs u v ↔ adj (u, v) q) →
      ∀ (fuel : Nat) (dout : List Nat) (sout : List Bool),
        floodLoop W H ((seedColor W data (sx, sy)).1 : Int)
            ((seedColor W data (sx, sy)).2.1 : Int)
            ((seedColor W data (sx, sy)).2.2.1 : Int)
            ((seedColor W data (sx, sy)).2.2.2 : Int)
            (fillR hex) (fillG hex) (fillB hex) 255 nbrs fuel data
            (List.replicate (W * H).toNat false) [(sx, sy)] = some (dout, sout) →
        ∀ p : Pt, inB W H p →
          (Reach (seedGood W H data (sx, sy)) (sx, sy) p →
            pix dout (idx W p) = (fillR hex, fillG hex, fillB hex, 255)) ∧
          (¬Reach (seedGood W H data (sx, sy)) (sx, sy) p →
            pix dout (idx W p) = pix data (idx W p)) := by
    intro nbrs hn fuel dout sout hloop p hp
    have hinv := floodLoop_invariant W H ((seedColor W data (sx, sy)).1 : Int)
      ((seedColor W data (sx, sy)).2.1 : Int) ((seedColor W data (sx, sy)).2.2.1 : Int)
      ((seedColor W data (sx, sy)).2.2.2 : Int) (fillR hex) (fillG hex) (fillB hex) 255
      data (sx, sy) nbrs hn fuel data (List.replicate (W * H).toNat false)
      [(sx, sy)] dout sout
      (FillInv_init W H _ _ _ _ (fillR hex) (fillG hex) (fillB hex) 255 data (sx, sy) hlen)
      hloop
    exact ⟨hinv.2.2.1 p hp, hinv.2.2.2 p hp⟩
  have h0 : 0 ≤ sy * W + sx := idxInt_nonneg W H (sx, sy) hseed
  have hi : (sy * W + sx).toNat < (W * H).toNat := idx_lt W H (sx, sy) hseed
  have hlt : (sy * W + sx).toNat * 4 + 3 < data.length := by rw [hlen]; omega
  have hbp := getByte_pix data (sy * W + sx) h0 hlt
  have hcond : ¬(getByte data ((sy * W + sx) * 4) = some (fillR hex) ∧
      getByte data ((sy * W + sx) * 4 + 1) = some (fillG hex) ∧
      getByte data ((sy * W + sx) * 4 + 2) = some (fillB hex) ∧
      getByte data ((sy * W + sx) * 4 + 3) = some 255) := by
    intro hc
    obtain ⟨hc1, hc2, hc3, hc4⟩ := hc
    rw [hbp.1] at hc1
    rw [hbp.2.1] at hc2
    rw [hbp.2.2.1] at hc3
    rw [hbp.2.2.2] at hc4
    apply hneq
    show pix data (sy * W + sx).toNat = (fillR hex, fillG hex, fillB hex, 255)
    have hx : pix data (sy * W + sx).toNat =
        ((pix data (sy * W + sx).toNat).1, (pix data (sy * W + sx).toNat).2.1,
         (pix data (sy * W + sx).toNat).2.2.1, (pix data (sy * W + sx).toNat).2.2.2) := rfl
    rw [hx, Option.some.inj hc1, Option.some.inj hc2, Option.some.inj hc3,
      Option.some.inj hc4]
  have hcnt : (List.replicate (W * H).toNat false).count false = (W * H).toNat := by
    simp [List.count_replicate]
  obtain ⟨⟨dout, sout⟩, hloop⟩ := floodLoop_total W H
    (byteVal (getByte data ((sy * W + sx) * 4)))
    (byteVal (getByte data ((sy * W + sx) * 4 + 1)))
    (byteVal (getByte data ((sy * W + sx) * 4 + 2)))
    (byteVal (getByte data ((sy * W + sx) * 4 + 3)))
    (fillR hex) (fillG hex) (fillB hex) 255 srcNbrs srcNbrs_length
    (floodFuel W H) data (List.replicate (W * H).toNat false) [(sx, sy)]
    (by simp) (by rw [hcnt]; simp [floodFuel])
  have hff : floodFill W H sx sy hex data = dout :=
    floodFill_eq_loop W H sx sy hex data dout sout hcond hloop
  have hb1 : byteVal (getByte data ((sy * W + sx) * 4)) =
      ((seedColor W data (sx, sy)).1 : Int) := by rw [hbp.1]; rfl
  have hb2 : byteVal (getByte data ((sy * W + sx) * 4 + 1)) =
      ((seedColor W data (sx, sy)).2.1 : Int) := by rw [hbp.2.1]; rfl
  have hb3 : byteVal (getByte data ((sy * W + sx) * 4 + 2)) =
      ((seedColor W data (sx, sy)).2.2.1 : Int) := by rw [hbp.2.2.1]; rfl
  have hb4 : byteVal (getByte data ((sy * W + sx) * 4 + 3)) =
      ((seedColor W data (sx, sy)).2.2.2 : Int) := by rw [hbp.2.2.2]; rfl
  rw [hb1, hb2, hb3, hb4] at hloop
  have hinv := floodLoop_invariant W H ((seedColor W data (sx, sy)).1 : Int)
    ((seedColor W data (sx, sy)).2.1 : Int) ((seedColor W data (sx, sy)).2.2.1 : Int)
    ((seedColor W data (sx, sy)).2.2.2 : Int) (fillR hex) (fillG hex) (fillB hex) 255
    data (sx, sy) srcNbrs srcNbrs_mem (floodFuel W H) data
    (List.replicate (W * H).toNat false) [(sx, sy)] dout sout
    (FillInv_init W H _ _ _ _ (fillR hex) (fillG hex) (fillB hex) 255 data (sx, sy) hlen)
    hloop
  refine ⟨⟨?_, ?_⟩, hgen⟩
  · rw [hff]; exact hinv.2.1
  · intro p hp
    exact ⟨fun hr => by rw [hff]; exact hinv.2.2.1 p hp hr,
      fun hr => by rw [hff]; exact hinv.2.2.2 p hp hr⟩

/-- For a well-formed buffer and in-bounds seed, a `floodFill` call either
takes the exact-equality early return or reduces to a completed run of the
work-stack loop with the seed pixel's color as reference. -/
theorem floodFill_run (W H sx sy : Int) (hex : List Char) (data : List Nat)
    (hlen : data.length = (W * H).toNat * 4) (hseed : inB W H (sx, sy)) :
    floodFill W H sx sy hex data = data ∨
    ∃ dout sout,
      floodLoop W H ((seedColor W data (sx, sy)).1 : Int)
        ((seedColor W data (sx, sy)).2.1 : Int)
        ((seedColor W data (sx, sy)).2.2.1 : Int)
        ((seedColor W data (sx, sy)).2.2.2 : Int)
        (fillR hex) (fillG hex) (fillB hex) 255 srcNbrs (floodFuel W H) data
        (List.replicate (W * H).toNat false) [(sx, sy)] = some (dout, sout) ∧
      floodFill W H sx sy hex data = dout := by
  by_cases hcond : getByte data ((sy * W + sx) * 4) = some (fillR hex) ∧
      getByte data ((sy * W + sx) * 4 + 1) = some (fillG hex) ∧
      getByte data ((sy * W + sx) * 4 + 2) = some (fillB hex) ∧
      getByte data ((sy * W + sx) * 4 + 3) = some 255
  · exact Or.inl (floodFill_eq_same W H sx sy hex data hcond)
  · have h0 : 0 ≤ sy * W + sx := idxInt_nonneg W H (sx, sy) hseed
    have hi : (sy * W + sx).toNat < (W * H).toNat := idx_lt W H (sx, sy) hseed
    have hlt : (sy * W + sx).toNat * 4 + 3 < data.length := by rw [hlen]; omega
    have hbp := getByte_pix data (sy * W + sx) h0 hlt
    have hcnt : (List.replicate (W * H).toNat false).count false = (W * H).toNat := by
      simp [List.count_replicate]
    obtain ⟨⟨dout, sout⟩, hloop⟩ := floodLoop_total W H
      (byteVal (getByte data ((sy * W + sx) * 4)))
      (byteVal (getByte data ((sy * W + sx) * 4 + 1)))
      (byteVal (getByte data ((sy * W + sx) * 4 + 2)))
      (byteVal (getByte data ((sy * W + sx) * 4 + 3)))
      (fillR hex) (fillG hex) (fillB hex) 255 srcNbrs srcNbrs_length
      (floodFuel W H) data (List.replicate (W * H).toNat false) [(sx, sy)]
      (by simp) (by rw [hcnt]; simp [floodFuel])
    have hff := floodFill_eq_loop W H sx sy hex data dout sout hcond hloop
    have hb1 : byteVal (getByte data ((sy * W + sx) * 4)) =
        ((seedColor W data (sx, sy)).1 : Int) := by rw [hbp.1]; rfl
    have hb2 : byteVal (getByte data ((sy * W + sx) * 4 + 1)) =
        ((seedColor W data (sx, sy)).2.1 : Int) := by rw [hbp.2.1]; rfl
    have hb3 : byteVal (getByte data ((sy * W + sx) * 4 + 2)) =
        ((seedColor W data (sx, sy)).2.2.1 : Int) := by rw [hbp.2.2.1]; rfl
    have hb4 : byteVal (getByte data ((sy * W + sx) * 4 + 3)) =
        ((seedColor W data (sx, sy)).2.2.2 : Int) := by rw [hbp.2.2.2]; rfl
    rw [hb1, hb2, hb3, hb4] at hloop
    exact Or.inr ⟨dout, sout, hloop, hff⟩

/-- C2: for any buffer with positive dimensions and in-bounds seed (and in
fact for any reference and fill colors), the work-stack loop run by
`floodFill` finishes within the supplied fuel — the `while` loop terminates —
and the final marker grid records at most `W * H` visited pixels. -/
theorem floodFill_terminates (W H sx sy sr sg sb sa : Int) (r g b a : Nat)
    (data : List Nat) (hW : 1 ≤ W) (hH : 1 ≤ H) (hseed : inB W H (sx, sy)) :
    ∃ (dout : List Nat) (sout : List Bool),
      floodLoop W H sr sg sb sa r g b a srcNbrs (floodFuel W H) data
        (List.replicate (W * H).toNat false) [(sx, sy)] = some (dout, sout) ∧
      sout.count true ≤ (W * H).toNat := by
  have hcnt : (List.replicate (W * H).toNat false).count false = (W * H).toNat := by
    simp [List.count_replicate]
  obtain ⟨⟨dout, sout⟩, hloop⟩ := floodLoop_total W H sr sg sb sa r g b a
    srcNbrs srcNbrs_length (floodFuel W H) data
    (List.replicate (W * H).toNat false) [(sx, sy)] (by simp) (by rw [hcnt]; simp [floodFuel])
  refine ⟨dout, sout, hloop, ?_⟩
  have hlen := (floodLoop_lengths W H sr sg sb sa r g b a srcNbrs
    (floodFuel W H) data (List.replicate (W * H).toNat false) [(sx, sy)] dout sout hloop).2
  calc sout.count true ≤ sout.length := List.count_le_length _ _
    _ = (W * H).toNat := by rw [hlen]; simp

/-- C2 witness: a 3-by-3 buffer with seed (1, 1). -/
theorem floodFill_terminates_witness :
    (1 ≤ (3 : Int) ∧ 1 ≤ (3 : Int) ∧ inB 3 3 (1, 1)) ∧
    ∃ (dout : List Nat) (sout : List Bool),
      floodLoop 3 3 255 255 255 255 0 0 0 255 srcNbrs (floodFuel 3 3)
        (List.replicate 36 255) (List.replicate ((3 * 3 : Int)).toNat false) [(1, 1)]
        = some (dout, sout) ∧
      sout.count true ≤ ((3 * 3 : Int)).toNat :=
  ⟨⟨by decide, by decide, by decide⟩,
    floodFill_terminates 3 3 1 1 255 255 255 255 0 0 0 255 (List.replicate 36 255)
      (by decide) (by decide) (by decide)⟩

/-- C3: a pixel passes the region test exactly when the sum of squared
per-channel differences (all 4 channels, alpha included) from the reference
color is strictly below 12000; and a pixel of a well-formed buffer whose
original color is at squared distance at least 12000 from the seed color is
left byte-identical by `floodFill` and is never marked visited by the loop. -/
theorem matchColor_tolerance (W H sx sy : Int) (hex : List Char) (data : List Nat) :
    (∀ (d : List Nat) (pos : Nat) (sr sg sb sa : Int),
      matchColor d pos sr sg sb sa = true ↔
        ((d.getD pos 0 : Int) - sr) * ((d.getD pos 0 : Int) - sr) +
        ((d.getD (pos + 1) 0 : Int) - sg) * ((d.getD (pos + 1) 0 : Int) - sg) +
        ((d.getD (pos + 2) 0 : Int) - sb) * ((d.getD (pos + 2) 0 : Int) - sb) +
        ((d.getD (pos + 3) 0 : Int) - sa) * ((d.getD (pos + 3) 0 : Int) - sa) < 12000) ∧
    (data.length = (W * H).toNat * 4 → inB W H (sx, sy) →
      ∀ p : Pt, inB W H p →
        matchColor data (idx W p * 4) ((seedColor W data (sx, sy)).1 : Int)
          ((seedColor W data (sx, sy)).2.1 : Int)
          ((seedColor W data (sx, sy)).2.2.1 : Int)
          ((seedColor W data (sx, sy)).2.2.2 : Int) = false →
        pix (floodFill W H sx sy hex data) (idx W p) = pix data (idx W p) ∧
        ∀ (fuel : Nat) (dout : List Nat) (sout : List Bool),
          floodLoop W H ((seedColor W data (sx, sy)).1 : Int)
            ((seedColor W data (sx, sy)).2.1 : Int)
            ((seedColor W data (sx, sy)).2.2.1 : Int)
            ((seedColor W data (sx, sy)).2.2.2 : Int)
            (fillR hex) (fillG hex) (fillB hex) 255 srcNbrs fuel data
            (List.replicate (W * H).toNat false) [(sx, sy)] = some (dout, sout) →
          sout.getD (idx W p) false = false) := by
  constructor
  · intro d pos sr sg sb sa
    simp only [matchColor, decide_eq_true_eq]
  · intro hlen hseed p hp hmc
    have hnr : ¬Reach (seedGood W H data (sx, sy)) (sx, sy) p := by
      intro hr
      have hg := Reach_good hr
      rw [hg.2] at hmc
      exact Bool.true_eq_false.mp hmc
    constructor
    · rcases floodFill_run W H sx sy hex data hlen hseed with hsame | ⟨dout, sout, hloop, hff⟩
      · rw [hsame]
      · have hinv := floodLoop_invariant W H ((seedColor W data (sx, sy)).1 : Int)
          ((seedColor W data (sx, sy)).2.1 : Int) ((seedColor W data (sx, sy)).2.2.1 : Int)
          ((seedColor W data (sx, sy)).2.2.2 : Int) (fillR hex) (fillG hex) (fillB hex) 255
          data (sx, sy) srcNbrs srcNbrs_mem (floodFuel W H) data
          (List.replicate (W * H).toNat false) [(sx, sy)] dout sout
          (FillInv_init W H _ _ _ _ (fillR hex) (fillG hex) (fillB hex) 255 data (sx, sy) hlen)
          hloop
        rw [hff]
        exact hinv.2.2.2 p hp hnr
    · intro fuel dout sout hloop
      have hinv := floodLoop_invariant W H ((seedColor W data (sx, sy)).1 : Int)
        ((seedColor W data (sx, sy)).2.1 : Int) ((seedColor W data (sx, sy)).2.2.1 : Int)
        ((seedColor W data (sx, sy)).2.2.2 : Int) (fillR hex) (fillG hex) (fillB hex) 255
        data (sx, sy) srcNbrs srcNbrs_mem fuel data
        (List.replicate (W * H).toNat false) [(sx, sy)] dout sout
        (FillInv_init W H _ _ _ _ (fillR hex) (fillG hex) (fillB hex) 255 data (sx, sy) hlen)
        hloop
      cases hbv : sout.getD (idx W p) false
      · rfl
      · exact absurd ((hinv.1 p hp).mp hbv) hnr

/-- C4: if the seed pixel's color already equals the parsed fill color on all
4 channels (target alpha 255), `floodFill` returns the buffer byte-identical. -/
theorem floodFill_noop_same_color (W H sx sy : Int) (hex : List Char) (data : List Nat)
    (hlen : data.length = (W * H).toNat * 4)
    (hseed : inB W H (sx, sy))
    (heq : pix data (idx W (sx, sy)) = (fillR hex, fillG hex, fillB hex, 255)) :
    floodFill W H sx sy hex data = data := by
  have h0 : 0 ≤ sy * W + sx := idxInt_nonneg W H (sx, sy) hseed
  have hi : (sy * W + sx).toNat < (W * H).toNat := idx_lt W H (sx, sy) hseed
  have hlt : (sy * W + sx).toNat * 4 + 3 < data.length := by rw [hlen]; omega
  have hbp := getByte_pix data (sy * W + sx) h0 hlt
  have hpe : pix data (sy * W + sx).toNat = (fillR hex, fillG hex, fillB hex, 255) := heq
  apply floodFill_eq_same
  rw [hbp.1, hbp.2.1, hbp.2.2.1, hbp.2.2.2, hpe]
  exact ⟨rfl, rfl, rfl, rfl⟩

/-- C4 witness: an all-white 3-by-3 buffer filled with `#ffffff` at (1, 1). -/
theorem floodFill_noop_same_color_witness :
    ((List.replicate 36 255).length = ((3 * 3 : Int)).toNat * 4 ∧
      inB 3 3 (1, 1) ∧
      pix (List.replicate 36 255) (idx 3 (1, 1)) =
        (fillR "#ffffff".toList, fillG "#ffffff".toList, fillB "#ffffff".toList, 255)) ∧
    floodFill 3 3 1 1 "#ffffff".toList (List.replicate 36 255) = List.replicate 36 255 :=
  ⟨⟨by decide, by decide, by decide⟩,
    floodFill_noop_same_color 3 3 1 1 "#ffffff".toList (List.replicate 36 255)
      (by decide) (by decide) (by decide)⟩

/-- C5: a seed outside the canvas bounds makes `floodFill` a silent no-op:
the buffer comes back byte-identical, for every buffer. -/
theorem floodFill_oob_seed_noop (W H sx sy : Int) (hex : List Char) (data : List Nat)
    (h : ¬inB W H (sx, sy)) :
    floodFill W H sx sy hex data = data := by
  by_cases hcond : getByte data ((sy * W + sx) * 4) = some (fillR hex) ∧
      getByte data ((sy * W + sx) * 4 + 1) = some (fillG hex) ∧
      getByte data ((sy * W + sx) * 4 + 2) = some (fillB hex) ∧
      getByte data ((sy * W + sx) * 4 + 3) = some 255
  · exact floodFill_eq_same W H sx sy hex data hcond
  · have hoob := oob_of_not_inB W H sx sy h
    have hfuel : floodFuel W H = 5 * (W * H).toNat + 1 + 1 := by
      unfold floodFuel; omega
    have hloop : floodLoop W H (byteVal (getByte data ((sy * W + sx) * 4)))
        (byteVal (getByte data ((sy * W + sx) * 4 + 1)))
        (byteVal (getByte data ((sy * W + sx) * 4 + 2)))
        (byteVal (getByte data ((sy * W + sx) * 4 + 3)))
        (fillR hex) (fillG hex) (fillB hex) 255 srcNbrs (floodFuel W H) data
        (List.replicate (W * H).toNat false) [(sx, sy)]
        = some (data, List.replicate (W * H).toNat false) := by
      rw [hfuel, floodLoop_oob W H (byteVal (getByte data ((sy * W + sx) * 4)))
        (byteVal (getByte data ((sy * W + sx) * 4 + 1)))
        (byteVal (getByte data ((sy * W + sx) * 4 + 2)))
        (byteVal (getByte data ((sy * W + sx) * 4 + 3)))
        (fillR hex) (fillG hex) (fillB hex) 255 srcNbrs
        (5 * (W * H).toNat + 1) data (List.replicate (W * H).toNat false) sx sy [] hoob,
        floodLoop_nil]
    exact floodFill_eq_loop W H sx sy hex data data _ hcond hloop

/-- C5 witness: a click at (-1, 5) on a 3-by-3 surface, over an arbitrary
4-byte buffer. -/
theorem floodFill_oob_seed_noop_witness :
    ¬inB 3 3 (-1, 5) ∧
    floodFill 3 3 (-1) 5 "#ff0000".toList [1, 2, 3, 4] = [1, 2, 3, 4] :=
  ⟨by decide, floodFill_oob_seed_noop 3 3 (-1) 5 "#ff0000".toList [1, 2, 3, 4] (by decide)⟩

/-- C10: after any `floodFill` call on a well-formed buffer, every pixel is
either byte-identical to its original value or exactly the parsed fill color
with alpha 255; the buffer length is unchanged (no partial writes). -/
theorem floodFill_unchanged_or_target (W H sx sy : Int) (hex : List Char)
    (data : List Nat) (hlen : data.length = (W * H).toNat * 4) :
    (floodFill W H sx sy hex data).length = data.length ∧
    ∀ p : Pt, inB W H p →
      pix (floodFill W H sx sy hex data) (idx W p) = pix data (idx W p) ∨
      pix (floodFill W H sx sy hex data) (idx W p) =
        (fillR hex, fillG hex, fillB hex, 255) := by
  by_cases hseed : inB W H (sx, sy)
  · rcases floodFill_run W H sx sy hex data hlen hseed with hsame | ⟨dout, sout, hloop, hff⟩
    · rw [hsame]
      exact ⟨rfl, fun p _ => Or.inl rfl⟩
    · have hinv := floodLoop_invariant W H ((seedColor W data (sx, sy)).1 : Int)
        ((seedColor W data (sx, sy)).2.1 : Int) ((seedColor W data (sx, sy)).2.2.1 : Int)
        ((seedColor W data (sx, sy)).2.2.2 : Int) (fillR hex) (fillG hex) (fillB hex) 255
        data (sx, sy) srcNbrs srcNbrs_mem (floodFuel W H) data
        (List.replicate (W * H).toNat false) [(sx, sy)] dout sout
        (FillInv_init W H _ _ _ _ (fillR hex) (fillG hex) (fillB hex) 255 data (sx, sy) hlen)
        hloop
      rw [hff]
      refine ⟨hinv.2.1, fun p hp => ?_⟩
      by_cases hr : Reach (seedGood W H data (sx, sy)) (sx, sy) p
      · exact Or.inr (hinv.2.2.1 p hp hr)
      · exact Or.inl (hinv.2.2.2 p hp hr)
  · rw [floodFill_oob_seed_noop W H sx sy hex data hseed]
    exact ⟨rfl, fun p _ => Or.inl rfl⟩

/-- C10 witness: a 3-by-3 all-white buffer filled with black at (1, 1). -/
theorem floodFill_unchanged_or_target_witness :
    (List.replicate 36 255).length = ((3 * 3 : Int)).toNat * 4 ∧
    ((floodFill 3 3 1 1 "#000000".toList (List.replicate 36 255)).length =
        (List.replicate (36 : Nat) (255 : Nat)).length ∧
      ∀ p : Pt, inB 3 3 p →
        pix (floodFill 3 3 1 1 "#000000".toList (List.replicate 36 255)) (idx 3 p) =
          pix (List.replicate 36 255) (idx 3 p) ∨
        pix (floodFill 3 3 1 1 "#000000".toList (List.replicate 36 255)) (idx 3 p) =
          (fillR "#000000".toList, fillG "#000000".toList, fillB "#000000".toList, 255)) :=
  ⟨by decide,
    floodFill_unchanged_or_target 3 3 1 1 "#000000".toList (List.replicate 36 255)
      (by decide)⟩

/-- C1 witness: filling an all-white 3-by-3 buffer with black at seed (1, 1);
the hypotheses of `floodFill_region` hold and the buffer length is preserved. -/
theorem floodFill_region_witness :
    ((List.replicate 36 255).length = ((3 * 3 : Int)).toNat * 4 ∧
      inB 3 3 (1, 1) ∧
      pix (List.replicate 36 255) (idx 3 (1, 1)) ≠
        (fillR "#000000".toList, fillG "#000000".toList, fillB "#000000".toList, 255)) ∧
    (floodFill 3 3 1 1 "#000000".toList (List.replicate 36 255)).length =
      (List.replicate (36 : Nat) (255 : Nat)).length :=
  ⟨⟨by decide, by decide, by decide⟩,
    (floodFill_region 3 3 1 1 "#000000".toList (List.replicate 36 255)
      (by decide) (by decide) (by decide)).1.1⟩

/-- A 3-by-3 buffer split by a black middle column, white on both sides. -/
def wallBuf : List Nat :=
  [255, 255, 255, 255, 0, 0, 0, 255, 255, 255, 255, 255,
   255, 255, 255, 255, 0, 0, 0, 255, 255, 255, 255, 255,
   255, 255, 255, 255, 0, 0, 0, 255, 255, 255, 255, 255]

/-- C3 witness: seeding at the white pixel (0, 1) of `wallBuf`, the black wall
pixel (1, 1) fails the tolerance test, is untouched by a red fill, and is
never marked visited. -/
theorem matchColor_tolerance_witness :
    (wallBuf.length = ((3 * 3 : Int)).toNat * 4 ∧ inB 3 3 (0, 1) ∧ inB 3 3 (1, 1) ∧
      matchColor wallBuf (idx 3 (1, 1) * 4) ((seedColor 3 wallBuf (0, 1)).1 : Int)
        ((seedColor 3 wallBuf (0, 1)).2.1 : Int)
        ((seedColor 3 wallBuf (0, 1)).2.2.1 : Int)
        ((seedColor 3 wallBuf (0, 1)).2.2.2 : Int) = false) ∧
    (pix (floodFill 3 3 0 1 "#ff0000".toList wallBuf) (idx 3 (1, 1)) =
        pix wallBuf (idx 3 (1, 1)) ∧
      ∀ (fuel : Nat) (dout : List Nat) (sout : List Bool),
        floodLoop 3 3 ((seedColor 3 wallBuf (0, 1)).1 : Int)
          ((seedColor 3 wallBuf (0, 1)).2.1 : Int)
          ((seedColor 3 wallBuf (0, 1)).2.2.1 : Int)
          ((seedColor 3 wallBuf (0, 1)).2.2.2 : Int)
          (fillR "#ff0000".toList) (fillG "#ff0000".toList) (fillB "#ff0000".toList) 255
          srcNbrs fuel wallBuf (List.replicate ((3 * 3 : Int)).toNat false) [(0, 1)]
          = some (dout, sout) →
        sout.getD (idx 3 (1, 1)) false = false) :=
  ⟨⟨by decide, by decide, by decide, by decide⟩,
    (matchColor_tolerance 3 3 0 1 "#ff0000".toList wallBuf).2
      (by decide) (by decide) (1, 1) (by decide) (by decide)⟩
